import Mathlib

/-!
Verification of the template rendering and rule matching core of
prompt-forge (src/prompt_forge.py), as a shallow embedding: strings are
Lean `String`s (lists of characters), the regular expressions fixed in
the source are embedded as explicit character scanners, Python dicts are
association lists with insertion-order update semantics, and fallible
operations return `Except`.

Scanners that advance through a string are written with a fuel argument
(structural recursion, so that concrete instances evaluate by `rfl` or
`decide`); the fuel is the length of the scanned list and each step
consumes at least one character, so the fuel never runs out.
-/

namespace PromptForge

/-- Python `\w` word characters, restricted to ASCII (the source templates
and the claims use ASCII names only). -/
def isWordChar (c : Char) : Bool := c.isAlphanum || c = '_'

/-- Association-list update with Python dict semantics: an existing key keeps
its position and gets the new value, a new key is appended. -/
def dictInsert {β : Type} (l : List (String × β)) (k : String) (v : β) :
    List (String × β) :=
  if l.any (fun p => p.1 = k) then
    l.map (fun p => if p.1 = k then (k, v) else p)
  else
    l ++ [(k, v)]

/-- Python `k in d` on the modelled dict. -/
def hasKey {β : Type} (l : List (String × β)) (k : String) : Bool :=
  l.any (fun p => p.1 = k)

/-- Lookup of the first entry with the given key (keys are unique in every
dict built with `dictInsert`, so this is the dict lookup). -/
def lookupStr {β : Type} (n : String) : List (String × β) → Option β
  | [] => none
  | p :: rest => if p.1 = n then some p.2 else lookupStr n rest

/-- Drop `pre` from the front of `l` when `l` starts with it (literal prefix
match, as the regex engine matches an escaped literal). -/
def dropPref : List Char → List Char → Option (List Char)
  | [], l => some l
  | _ :: _, [] => none
  | p :: ps, c :: cs => if p = c then dropPref ps cs else none

/-- Parse `default="<literal>"}}` after the `|` of a marker: the literal
`default="`, then `[^"]*` (greedy, stopping at the first quote), then `"}}`.
Returns the captured literal and the rest after the match. -/
def parseDefault (r2 : List Char) : Option (String × List Char) :=
  match dropPref ('d' :: 'e' :: 'f' :: 'a' :: 'u' :: 'l' :: 't' :: '=' :: '"' :: []) r2 with
  | none => none
  | some r3 =>
    match dropPref ('"' :: '}' :: '}' :: []) (r3.dropWhile (fun c => !(c == '"'))) with
    | none => none
    | some r4 => some (String.mk (r3.takeWhile (fun c => !(c == '"'))), r4)

/-- One match attempt of `{{(\w+)(?:\|default="([^"]*)")?}}` at the head of
`l` (the pattern of `extract_variables`). Returns the name, the captured
default (`none` when the optional group does not participate) and the rest
of the input after the match. The regex is deterministic here: `\w+` is
maximal (a shorter name leaves a word character where `}` or `|` is
required) and `[^"]*` stops at the first quote. -/
def matchMarkerAt (l : List Char) : Option (String × Option String × List Char) :=
  match l with
  | '{' :: '{' :: rest =>
    match rest.takeWhile isWordChar with
    | [] => none
    | n :: ns =>
      match rest.dropWhile isWordChar with
      | '}' :: '}' :: r3 => some (String.mk (n :: ns), none, r3)
      | '|' :: r2 =>
        match parseDefault r2 with
        | some (lit, r4) => some (String.mk (n :: ns), some lit, r4)
        | none => none
      | _ => none
  | _ => none

/-- The scan of `re.findall` for the marker pattern: leftmost,
non-overlapping matches; on failure advance one character. Fuel-driven;
adequate fuel is the length of the input. -/
def scanAuxF : Nat → List Char → List (String × Option String)
  | 0, _ => []
  | _ + 1, [] => []
  | fuel + 1, c :: rest =>
    match matchMarkerAt (c :: rest) with
    | some (n, d, r) => (n, d) :: scanAuxF fuel r
    | none => scanAuxF fuel rest

/-- All marker matches of the template, in textual order, with their raw
captured defaults (`re.findall` on the extraction pattern). -/
def scanMarkers (s : String) : List (String × Option String) :=
  scanAuxF s.data.length s.data

/-- The `default or None` of the source: a non-participating group (which
`findall` reports as `''`) and an empty default literal both become `None`. -/
def defaultOrNone (d : Option String) : Option String :=
  match d with
  | some s => if s = "" then none else some s
  | none => none

/-- `extract_variables` (src/prompt_forge.py line 72-73): the dict
comprehension `{name: default or None for name, default in re.findall(...)}`.
Later occurrences of a name overwrite earlier ones. -/
def extract_variables (template : String) : List (String × Option String) :=
  (scanMarkers template).foldl (fun acc p => dictInsert acc p.1 (defaultOrNone p.2)) []

/-! ## Value collection (`collect_values`, lines 75-95) -/

/-- The two failure modes of `collect_values`: a `--var` argument without
`=`, and unresolved required vars. (The unused-value warning is a
side effect on stderr and does not change the result; it is not modelled.) -/
inductive CollectError where
  | invalidVar : String → CollectError
  | missing : List String → CollectError
deriving DecidableEq

/-- Python `v.split('=', 1)` guarded by `'=' not in v`: split at the first
`=`, `none` when there is no `=`. -/
def splitEqAux : List Char → List Char → Option (String × String)
  | _, [] => none
  | acc, c :: rest =>
    if c = '=' then some (String.mk acc.reverse, String.mk rest)
    else splitEqAux (c :: acc) rest

/-- Split a `KEY=VALUE` argument at its first `=`. -/
def splitEq (s : String) : Option (String × String) := splitEqAux [] s.data

/-- Python whitespace strip (`str.strip()` with no argument), over
`Char.isWhitespace`. -/
def pyStrip (s : String) : String :=
  String.mk (((s.data.dropWhile Char.isWhitespace).reverse.dropWhile Char.isWhitespace).reverse)

/-- The dict built from the JSON values file (`values.update(json.load(f))`
starting from the empty dict): duplicate keys keep the last value. -/
def fileDict (fileVals : Option (List (String × String))) : List (String × String) :=
  match fileVals with
  | some fv => fv.foldl (fun acc p => dictInsert acc p.1 p.2) []
  | none => []

/-- The loop over `args.var` (lines 79-82): each argument must contain `=`;
the pair overwrites any earlier binding of the key. -/
def applyVarArgs : List (String × String) → List String → Except CollectError (List (String × String))
  | values, [] => .ok values
  | values, a :: rest =>
    match splitEq a with
    | none => .error (.invalidVar a)
    | some (k, v) => applyVarArgs (dictInsert values k v) rest

/-- The default-filling loop (lines 83-84): `if var not in values and
default: values[var] = default`. A `None` default and an empty-string
default are both falsy and fill nothing. -/
def fillDefaults (values : List (String × String)) (vars : List (String × Option String)) :
    List (String × String) :=
  vars.foldl
    (fun acc p =>
      if hasKey acc p.1 then acc
      else
        match p.2 with
        | some d => if d = "" then acc else dictInsert acc p.1 d
        | none => acc)
    values

/-- The interactive loop (lines 85-90). The console is abstracted as a
function from the variable name to the raw response; the response is
stripped, and an empty response falls back to `default or ""`. -/
def fillInteractive (values : List (String × String)) (vars : List (String × Option String))
    (input : String → String) : List (String × String) :=
  vars.foldl
    (fun acc p =>
      if hasKey acc p.1 then acc
      else
        dictInsert acc p.1
          (if pyStrip (input p.1) = "" then (Option.getD p.2 "") else pyStrip (input p.1)))
    values

/-- `collect_values` (lines 75-95): merge the values file, the discrete
`--var` pairs, the extraction-time defaults and (when enabled) interactive
input, then fail if any template variable is still unresolved. -/
def collect_values (vars : List (String × Option String))
    (fileVals : Option (List (String × String))) (varArgs : List String)
    (interactive : Bool) (input : String → String) :
    Except CollectError (List (String × String)) :=
  match applyVarArgs (fileDict fileVals) varArgs with
  | .error e => .error e
  | .ok v1 =>
    let v2 := fillDefaults v1 vars
    let v3 := if interactive then fillInteractive v2 vars input else v2
    let ms := (vars.filter (fun p => !(hasKey v3 p.1))).map Prod.fst
    if ms = [] then .ok v3 else .error (.missing ms)

/-! ## Rendering (`render_template`, lines 97-101) -/

/-- CPython's processing of a `re.sub` replacement template, for a pattern
with no capturing groups (the per-variable pattern of `render_template` has
none): `\\`, `\n`, `\r`, `\t`, `\a`, `\b`, `\f`, `\v` are escapes, `\0` is
the NUL octal escape (longer octal escapes are not modelled), a digit or
`\g` is a group reference — an error here, since the pattern has no groups
(`\g<0>` is not modelled) — any other ASCII letter after a backslash is a
bad escape (an error), any other escaped character keeps its backslash, and
a trailing lone backslash is an error. `none` models the raised `re.error`. -/
def applyRepl : List Char → Option (List Char)
  | [] => some []
  | '\\' :: rest =>
    match rest with
    | [] => none
    | c :: rest2 =>
      if c = '\\' then (applyRepl rest2).map (fun r => '\\' :: r)
      else if c = 'n' then (applyRepl rest2).map (fun r => '\n' :: r)
      else if c = 't' then (applyRepl rest2).map (fun r => '\t' :: r)
      else if c = 'r' then (applyRepl rest2).map (fun r => '\r' :: r)
      else if c = 'a' then (applyRepl rest2).map (fun r => Char.ofNat 7 :: r)
      else if c = 'b' then (applyRepl rest2).map (fun r => Char.ofNat 8 :: r)
      else if c = 'f' then (applyRepl rest2).map (fun r => Char.ofNat 12 :: r)
      else if c = 'v' then (applyRepl rest2).map (fun r => Char.ofNat 11 :: r)
      else if c = '0' then (applyRepl rest2).map (fun r => Char.ofNat 0 :: r)
      else if c.isDigit then none
      else if c = 'g' then none
      else if c.isAlpha then none
      else (applyRepl rest2).map (fun r => '\\' :: c :: r)
  | c :: rest => (applyRepl rest).map (fun r => c :: r)

/-- One match attempt of `{{<escaped var>(?:\|default="[^"]*")?}}` at the
head of `l` (the per-variable substitution pattern of `render_template`,
line 100); returns the rest after the match. `re.escape(var)` makes the
name a literal, so this is a plain prefix comparison. -/
def matchVarAt (var : List Char) (l : List Char) : Option (List Char) :=
  match l with
  | '{' :: '{' :: rest =>
    match dropPref var rest with
    | none => none
    | some r2 =>
      match r2 with
      | '}' :: '}' :: r3 => some r3
      | '|' :: 'd' :: 'e' :: 'f' :: 'a' :: 'u' :: 'l' :: 't' :: '=' :: '"' :: r3 =>
        match r3.dropWhile (fun c => !(c == '"')) with
        | '"' :: '}' :: '}' :: r4 => some r4
        | _ => none
      | _ => none
  | _ => none

/-- The global substitution of `re.sub` for one variable: leftmost,
non-overlapping matches, each replaced by the processed replacement text.
Fuel-driven; the pattern never matches the empty string, so fuel equal to
the input length is adequate. -/
def substAuxF (var repl : List Char) : Nat → List Char → List Char
  | 0, l => l
  | _ + 1, [] => []
  | fuel + 1, c :: rest =>
    match matchVarAt var (c :: rest) with
    | some r => repl ++ substAuxF var repl fuel r
    | none => c :: substAuxF var repl fuel rest

/-- `render_template` (lines 97-101): for each entry of the value dict in
order, `result = re.sub('{{' + re.escape(var) + '(?:\|default="[^"]*")?}}',
str(val), result)`. The value is the `re.sub` replacement argument, so it
undergoes replacement-template escape processing; a bad escape raises
(modelled as `.error`). -/
def render_template (template : String) (values : List (String × String)) :
    Except String String :=
  values.foldl
    (fun res p =>
      match res with
      | .error e => .error e
      | .ok r =>
        match applyRepl p.2.data with
        | none => .error "re.error: bad escape or group reference in replacement"
        | some repl => .ok (String.mk (substAuxF p.1.data repl r.data.length r.data)))
    (.ok template)

/-! ## Response simulation (`simulate_response`, lines 103-112) -/

/-- A simulation rule: a regex pattern and a response template. -/
structure Rule where
  regex : String
  response : String
deriving DecidableEq

/-- `DEFAULT_RULES` (lines 9-21), verbatim from the source. -/
def DEFAULT_RULES : List Rule := [
  { regex := "code|programming|python|javascript|function|class|implement",
    response := "Here's a code implementation:\n\n```\n# Implementation\n```\n\nThis demonstrates the functionality." },
  { regex := "explain|what is|describe|definition",
    response := "Explanation:\n\nKey points:\n1. First\n2. Second\n3. Third" },
  { regex := "list|enumerate|steps|how to",
    response := "Steps:\n\n1. First\n2. Second\n3. Third" },
  { regex := "debug|error|fix|problem",
    response := "Troubleshooting:\n\n**Problem:** [issue]\n**Solution:** [fix]\n**Explanation:** [why]" },
  { regex := "review|analyze|evaluate",
    response := "Analysis:\n\n**Strengths:** Point 1\n**Improvements:** Point 2" },
  { regex := ".*",
    response := "I understand. Here's a response addressing your needs." }]

/-- Whether `needle` occurs as a contiguous substring of `hay`. -/
def containsSub : List Char → List Char → Bool
  | n, [] => n.isEmpty
  | n, c :: rest => (dropPref n (c :: rest)).isSome || containsSub n rest

/-- Split a pattern at its `|` alternation bars (`"a|b|c"` into its three
branches, empty branches kept). -/
def splitBarAux : List Char → List Char → List (List Char)
  | acc, [] => [acc.reverse]
  | acc, c :: rest =>
    if c = '|' then acc.reverse :: splitBarAux [] rest
    else splitBarAux (c :: acc) rest

/-- ASCII lowercasing of a character list. -/
def lowerList (l : List Char) : List Char := l.map Char.toLower

/-- `re.search(pattern, text, re.IGNORECASE)` as a Bool, modelled for the
pattern subset that the rule tables of this program use: `|`-separated
branches that are either metacharacter-free literals or the universal
branch `.*`. A literal branch succeeds somewhere iff it is a substring;
case-insensitivity is lowercasing both sides (ASCII). -/
def regexSearchCI (pattern text : String) : Bool :=
  (splitBarAux [] pattern.data).any
    (fun br => br = '.' :: '*' :: [] || containsSub (lowerList br) (lowerList text.data))

/-- Python `str.replace` (all occurrences, left to right, non-overlapping),
fuel-driven. The relevant needle `{{var}}` is never empty; an empty needle
is returned unchanged (Python would interleave, but that case is
unreachable here). -/
def replAuxF (pat rep : List Char) : Nat → List Char → List Char
  | 0, l => l
  | _ + 1, [] => []
  | fuel + 1, c :: rest =>
    match dropPref pat (c :: rest) with
    | some r => rep ++ replAuxF pat rep fuel r
    | none => c :: replAuxF pat rep fuel rest

/-- Python `s.replace(pat, rep)` for a non-empty `pat`. -/
def strReplace (s pat rep : String) : String :=
  match pat.data with
  | [] => s
  | p :: ps => String.mk (replAuxF (p :: ps) rep.data s.data.length s.data)

/-- Line 110: `for var, val in values.items(): resp = resp.replace(f'{{{{{var}}}}}', str(val))` —
a literal replacement of `{{var}}` (no default clause) in the response. -/
def substResponse (resp : String) (values : List (String × String)) : String :=
  values.foldl (fun r p => strReplace r ("\x7b\x7b" ++ p.1 ++ "\x7d\x7d") p.2) resp

/-- `simulate_response` (lines 106-112): first rule whose pattern matches
the prompt by case-insensitive search wins; its response gets the value
substitution; no rule matching yields the fixed fallback string. -/
def simulate_response (prompt : String) (rules : List Rule)
    (values : List (String × String)) : String :=
  match rules with
  | [] => "No matching response."
  | r :: rest =>
    if regexSearchCI r.regex prompt then substResponse r.response values
    else simulate_response prompt rest values

/-! ## Token estimate (`estimate_tokens`, line 114) -/

/-- The number of whitespace-separated tokens of a string: `len(text.split())`. -/
def wordCountAux : List Char → Bool → Nat
  | [], _ => 0
  | c :: rest, inWord =>
    if c.isWhitespace then wordCountAux rest false
    else (if inWord then 0 else 1) + wordCountAux rest true

/-- `len(text.split())`. -/
def wordCount (s : String) : Nat := wordCountAux s.data false

/-- `estimate_tokens` (line 114): `int(len(text.split()) * 1.3)`, modelled
as the exact rational floor `13 * n / 10` (the IEEE-double product `n * 1.3`
truncates to the same integer for every word count a text can have). -/
def estimate_tokens (text : String) : Nat := 13 * wordCount text / 10

/-! ## Derived notions used by the claims -/

/-- The value the discrete `--var` pairs give to `n`: the last well-formed
`KEY=VALUE` argument with key `n`. -/
def discreteVal (varArgs : List String) (n : String) : Option String :=
  ((varArgs.filterMap splitEq).reverse.find? (fun p => p.1 = n)).map Prod.snd

/-- The value the values file gives to `n`: the last entry with key `n`. -/
def fileVal (fileVals : Option (List (String × String))) (n : String) : Option String :=
  match fileVals with
  | some fv => (fv.reverse.find? (fun p => p.1 = n)).map Prod.snd
  | none => none

/-- The extraction-time default that stage 3 can fill for `n`: the recorded
default when it is truthy (non-`None` and non-empty). -/
def defaultVal (vars : List (String × Option String)) (n : String) : Option String :=
  match lookupStr n vars with
  | some (some d) => if d = "" then none else some d
  | _ => none

/-- The value interactive prompting produces for `n`: the stripped response
when non-empty, else `default or ""`. -/
def interactiveVal (vars : List (String × Option String)) (input : String → String)
    (n : String) : String :=
  if pyStrip (input n) = "" then (Option.join (lookupStr n vars)).getD ""
  else pyStrip (input n)

/-- The resolution chain of `collect_values`, highest precedence first. -/
def resolvedVal (vars : List (String × Option String))
    (fileVals : Option (List (String × String))) (varArgs : List String)
    (interactive : Bool) (input : String → String) (n : String) : Option String :=
  (discreteVal varArgs n).or ((fileVal fileVals n).or ((defaultVal vars n).or
    (if interactive && hasKey vars n then some (interactiveVal vars input n) else none)))

/-- Whether `n` stays unresolved through every stage of `collect_values`. -/
def unresolvedVar (vars : List (String × Option String))
    (fileVals : Option (List (String × String))) (varArgs : List String)
    (interactive : Bool) (n : String) : Bool :=
  (discreteVal varArgs n).isNone && (fileVal fileVals n).isNone &&
    (defaultVal vars n).isNone && !interactive

/-- Whether `s` contains a marker that extraction would recognize for the
given name. -/
def hasMarkerFor (name : String) (s : String) : Bool :=
  (scanMarkers s).any (fun p => p.1 = name)

/-! ## Dictionary and lookup lemmas -/

theorem lookupStr_append {β : Type} (n : String) (l1 l2 : List (String × β)) :
    lookupStr n (l1 ++ l2) = (lookupStr n l1).or (lookupStr n l2) := by
  induction l1 with
  | nil => simp [lookupStr]
  | cons p rest ih => by_cases h : p.1 = n <;> simp [lookupStr, h, ih, Option.or]

theorem hasKey_iff_mem {β : Type} (l : List (String × β)) (k : String) :
    hasKey l k = true ↔ k ∈ l.map Prod.fst := by
  simp [hasKey, List.any_eq_true, List.mem_map]

theorem hasKey_eq_isSome {β : Type} (l : List (String × β)) (k : String) :
    hasKey l k = (lookupStr k l).isSome := by
  induction l with
  | nil => rfl
  | cons p rest ih =>
    by_cases h : p.1 = k
    · simp [hasKey, lookupStr, h, List.any_cons]
    · simp [hasKey, lookupStr, h, List.any_cons]
      simpa [hasKey] using ih

theorem lookupStr_map_update {β : Type} (l : List (String × β)) (k n : String) (v : β) :
    lookupStr n (l.map (fun p => if p.1 = k then (k, v) else p)) =
      if n = k then (if hasKey l k then some v else none) else lookupStr n l := by
  induction l with
  | nil => simp [lookupStr, hasKey]
  | cons p rest ih =>
    by_cases hpk : p.1 = k
    · by_cases hnk : n = k
      · subst hnk
        simp [lookupStr, hasKey, List.any_cons, hpk, ih]
      · have hkn : ¬ k = n := fun hh => hnk hh.symm
        have hpn : ¬ p.1 = n := by rw [hpk]; exact hkn
        simp [lookupStr, hasKey, List.any_cons, hpk, hkn, hnk, hpn, ih]
    · by_cases hnk : n = k
      · subst hnk
        have hpn : ¬ p.1 = n := hpk
        simp [lookupStr, hasKey, List.any_cons, hpk, hpn, ih]
        rw [decide_eq_false hpk, Bool.false_or]
      · simp [lookupStr, hasKey, List.any_cons, hpk, hnk, ih]

theorem lookupStr_dictInsert {β : Type} (l : List (String × β)) (k n : String) (v : β) :
    lookupStr n (dictInsert l k v) = if n = k then some v else lookupStr n l := by
  unfold dictInsert
  by_cases h : l.any (fun p => p.1 = k)
  · rw [if_pos h, lookupStr_map_update]
    by_cases hnk : n = k <;> simp [hnk, hasKey, h]
  · rw [if_neg h, lookupStr_append]
    by_cases hnk : n = k
    · subst hnk
      have hnone : lookupStr n l = none := by
        have hh := hasKey_eq_isSome l n
        simp [hasKey, h] at hh
        cases hl : lookupStr n l with
        | none => rfl
        | some x => rw [hl] at hh; simp at hh
      simp [hnone, lookupStr, Option.or]
    · have hkn : ¬ k = n := fun hh => hnk hh.symm
      simp [lookupStr, hkn, hnk, Option.or_none]

theorem lookupStr_foldl_dictInsert {β γ : Type} (f : β → γ) (n : String) :
    ∀ (ms : List (String × β)) (acc : List (String × γ)),
      lookupStr n (ms.foldl (fun a p => dictInsert a p.1 (f p.2)) acc) =
        ((ms.reverse.find? (fun p => p.1 = n)).map (fun p => f p.2)).or (lookupStr n acc)
  | [], acc => by simp
  | m :: rest, acc => by
    simp only [List.foldl_cons, List.reverse_cons, List.find?_append]
    rw [lookupStr_foldl_dictInsert f n rest, lookupStr_dictInsert]
    cases hf : rest.reverse.find? (fun p => p.1 = n) with
    | some q => simp [Option.or]
    | none =>
      by_cases h : m.1 = n
      · simp [Option.or, List.find?_cons, h]
      · have hnm : ¬ n = m.1 := fun hh => h hh.symm
        simp [Option.or, List.find?_cons, h, hnm]

theorem lookupStr_eq_none_of_not_mem {β : Type} {l : List (String × β)} {n : String}
    (h : n ∉ l.map Prod.fst) : lookupStr n l = none := by
  have hk : hasKey l n = false := by
    cases hh : hasKey l n
    · rfl
    · exact absurd ((hasKey_iff_mem l n).mp hh) h
  rw [hasKey_eq_isSome] at hk
  cases hl : lookupStr n l with
  | none => rfl
  | some x => rw [hl] at hk; simp at hk

/-! ## Stage lemmas for `collect_values` -/

theorem lookupStr_fileDict (fileVals : Option (List (String × String))) (n : String) :
    lookupStr n (fileDict fileVals) = fileVal fileVals n := by
  cases fileVals with
  | none => rfl
  | some fv =>
    have h := lookupStr_foldl_dictInsert (fun v : String => v) n fv []
    have h2 : lookupStr n (fileDict (some fv)) =
        ((fv.reverse.find? (fun p => p.1 = n)).map (fun p => p.2)).or none := h
    rw [Option.or_none] at h2
    exact h2.trans rfl

theorem applyVarArgs_lookup (n : String) :
    ∀ (args : List String) (values out : List (String × String)),
      applyVarArgs values args = .ok out →
      lookupStr n out = (discreteVal args n).or (lookupStr n values)
  | [], values, out => by
    intro h
    simp only [applyVarArgs, Except.ok.injEq] at h
    subst h
    simp [discreteVal]
  | a :: rest, values, out => by
    intro h
    simp only [applyVarArgs] at h
    cases hs : splitEq a with
    | none => rw [hs] at h; exact absurd h (by simp)
    | some kv =>
      rw [hs] at h
      have ih := applyVarArgs_lookup n rest (dictInsert values kv.1 kv.2) out h
      rw [ih, lookupStr_dictInsert]
      have hd : discreteVal (a :: rest) n =
          (discreteVal rest n).or (if kv.1 = n then some kv.2 else none) := by
        simp only [discreteVal, List.filterMap_cons, hs, List.reverse_cons,
          List.find?_append, Option.map_or]
        cases hf : (List.filterMap splitEq rest).reverse.find? (fun p => p.1 = n) with
        | some q => simp [Option.or]
        | none =>
          by_cases hkn : kv.1 = n
          · simp [Option.or, List.find?_cons, hkn]
          · have hnk : ¬ n = kv.1 := fun hh => hkn hh.symm
            simp [Option.or, List.find?_cons, hkn, hnk]
      rw [hd, Option.or_assoc]
      by_cases hkn : kv.1 = n
      · have hnk : n = kv.1 := hkn.symm
        rw [if_pos hnk, if_pos hkn]
        cases discreteVal rest n <;> simp [Option.or]
      · have hnk : ¬ n = kv.1 := fun hh => hkn hh.symm
        rw [if_neg hnk, if_neg hkn]
        cases discreteVal rest n <;> simp [Option.or]

theorem applyVarArgs_ok :
    ∀ (args : List String) (values : List (String × String)),
      (∀ a ∈ args, (splitEq a).isSome) →
      ∃ out, applyVarArgs values args = .ok out
  | [], values => fun _ => ⟨values, rfl⟩
  | a :: rest, values => by
    intro h
    have ha : (splitEq a).isSome := h a (by simp)
    cases hs : splitEq a with
    | none => rw [hs] at ha; simp at ha
    | some kv =>
      obtain ⟨out, hout⟩ := applyVarArgs_ok rest (dictInsert values kv.1 kv.2)
        (fun x hx => h x (by simp [hx]))
      exact ⟨out, by simp only [applyVarArgs, hs]; exact hout⟩

theorem lookupStr_fillDefaults (n : String) :
    ∀ (vl : List (String × Option String)) (values : List (String × String)),
      (vl.map Prod.fst).Nodup →
      lookupStr n (fillDefaults values vl) = (lookupStr n values).or (defaultVal vl n)
  | [], values => by
    intro _
    simp [fillDefaults, defaultVal, lookupStr, Option.or_none]
  | (v0, d0) :: rest, values => by
    intro hnd
    rw [List.map_cons, List.nodup_cons] at hnd
    obtain ⟨hv0, hnd2⟩ := hnd
    simp only at hv0
    have hdrest : v0 = n → defaultVal rest n = none := by
      intro he
      simp [defaultVal, lookupStr_eq_none_of_not_mem (he ▸ hv0)]
    have hdconsneg : ¬ v0 = n → defaultVal ((v0, d0) :: rest) n = defaultVal rest n := by
      intro hvn
      simp [defaultVal, lookupStr, hvn]
    have hlooknone : v0 = n → hasKey values v0 = false → lookupStr n values = none := by
      intro he hk
      rw [he, hasKey_eq_isSome] at hk
      cases hl : lookupStr n values with
      | none => rfl
      | some x => rw [hl] at hk; simp at hk
    simp only [fillDefaults, List.foldl_cons]
    by_cases hk : hasKey values v0
    · rw [if_pos hk]
      have ih := lookupStr_fillDefaults n rest values hnd2
      simp only [fillDefaults] at ih
      rw [ih]
      by_cases hvn : v0 = n
      · have hsome : ∃ x, lookupStr n values = some x := by
          rw [hvn] at hk
          rw [hasKey_eq_isSome] at hk
          cases hl : lookupStr n values with
          | none => rw [hl] at hk; simp at hk
          | some x => exact ⟨x, rfl⟩
        obtain ⟨x, hx⟩ := hsome
        rw [hx]
        simp [Option.or]
      · rw [hdconsneg hvn]
    · rw [if_neg hk]
      cases d0 with
      | none =>
        have ih := lookupStr_fillDefaults n rest values hnd2
        simp only [fillDefaults] at ih
        rw [ih]
        by_cases hvn : v0 = n
        · rw [hdrest hvn]
          have hcons : defaultVal ((v0, none) :: rest) n = none := by
            simp [defaultVal, lookupStr, hvn]
          rw [hcons]
        · rw [hdconsneg hvn]
      | some d =>
        have hred : (match some d with
            | some d => if d = "" then values else dictInsert values v0 d
            | none => values) = if d = "" then values else dictInsert values v0 d := rfl
        rw [hred]
        by_cases hde : d = ""
        · rw [if_pos hde]
          have ih := lookupStr_fillDefaults n rest values hnd2
          simp only [fillDefaults] at ih
          rw [ih]
          by_cases hvn : v0 = n
          · rw [hdrest hvn]
            have hcons : defaultVal ((v0, some d) :: rest) n = none := by
              simp [defaultVal, lookupStr, hvn, hde]
            rw [hcons]
          · rw [hdconsneg hvn]
        · rw [if_neg hde]
          have ih := lookupStr_fillDefaults n rest (dictInsert values v0 d) hnd2
          simp only [fillDefaults] at ih
          rw [ih, lookupStr_dictInsert]
          by_cases hvn : v0 = n
          · have hnv : n = v0 := hvn.symm
            rw [if_pos hnv, hdrest hvn, hlooknone hvn (by simpa using hk)]
            have hcons : defaultVal ((v0, some d) :: rest) n = some d := by
              simp [defaultVal, lookupStr, hvn, hde]
            rw [hcons]
            simp [Option.or]
          · have hnv : ¬ n = v0 := fun hh => hvn hh.symm
            rw [if_neg hnv, hdconsneg hvn]

theorem lookupStr_fillInteractive (n : String) (input : String → String) :
    ∀ (vl : List (String × Option String)) (values : List (String × String)),
      (vl.map Prod.fst).Nodup →
      lookupStr n (fillInteractive values vl input) =
        (lookupStr n values).or
          (if hasKey vl n then some (interactiveVal vl input n) else none)
  | [], values => by
    intro _
    simp [fillInteractive, hasKey, lookupStr, Option.or_none]
  | (v0, d0) :: rest, values => by
    intro hnd
    rw [List.map_cons, List.nodup_cons] at hnd
    obtain ⟨hv0, hnd2⟩ := hnd
    simp only at hv0
    have hkconsneg : ¬ v0 = n → hasKey ((v0, d0) :: rest) n = hasKey rest n := by
      intro hvn
      simp [hasKey, List.any_cons, hvn]
    have hkconspos : v0 = n → hasKey ((v0, d0) :: rest) n = true := by
      intro hvn
      simp [hasKey, List.any_cons, hvn]
    have hivalneg : ¬ v0 = n →
        interactiveVal ((v0, d0) :: rest) input n = interactiveVal rest input n := by
      intro hvn
      simp [interactiveVal, lookupStr, hvn]
    have hivalpos : v0 = n →
        interactiveVal ((v0, d0) :: rest) input n =
          (if pyStrip (input v0) = "" then (Option.getD d0 "") else pyStrip (input v0)) := by
      intro hvn
      subst hvn
      cases d0 <;> simp [interactiveVal, lookupStr, Option.join, Option.getD]
    have hlooknone : v0 = n → hasKey values v0 = false → lookupStr n values = none := by
      intro he hk
      rw [he, hasKey_eq_isSome] at hk
      cases hl : lookupStr n values with
      | none => rfl
      | some x => rw [hl] at hk; simp at hk
    simp only [fillInteractive, List.foldl_cons]
    by_cases hk : hasKey values v0
    · rw [if_pos hk]
      have ih := lookupStr_fillInteractive n input rest values hnd2
      simp only [fillInteractive] at ih
      rw [ih]
      by_cases hvn : v0 = n
      · have hsome : ∃ x, lookupStr n values = some x := by
          rw [hvn] at hk
          rw [hasKey_eq_isSome] at hk
          cases hl : lookupStr n values with
          | none => rw [hl] at hk; simp at hk
          | some x => exact ⟨x, rfl⟩
        obtain ⟨x, hx⟩ := hsome
        rw [hx]
        simp [Option.or]
      · rw [hkconsneg hvn]
        by_cases hkr : hasKey rest n
        · rw [if_pos hkr, if_pos hkr, hivalneg hvn]
        · rw [if_neg hkr, if_neg hkr]
    · rw [if_neg hk]
      have ih := lookupStr_fillInteractive n input rest
        (dictInsert values v0
          (if pyStrip (input v0) = "" then (Option.getD d0 "") else pyStrip (input v0))) hnd2
      simp only [fillInteractive] at ih
      rw [ih, lookupStr_dictInsert]
      by_cases hvn : v0 = n
      · have hnv : n = v0 := hvn.symm
        have hkrest : hasKey rest n = false := by
          cases hh : hasKey rest n
          · rfl
          · exact absurd ((hasKey_iff_mem rest n).mp hh) (hvn ▸ hv0)
        rw [if_pos hnv, hkrest, hkconspos hvn, if_pos rfl, hivalpos hvn,
          hlooknone hvn (by simpa using hk)]
        simp [Option.or]
      · have hnv : ¬ n = v0 := fun hh => hvn hh.symm
        rw [if_neg hnv, hkconsneg hvn, hivalneg hvn]

/-! ## The resolution pipeline of `collect_values` -/

theorem lookupStr_pipeline (vars : List (String × Option String))
    (fileVals : Option (List (String × String))) (varArgs : List String)
    (interactive : Bool) (input : String → String) (v1 : List (String × String))
    (n : String) (hnd : (vars.map Prod.fst).Nodup)
    (ha : applyVarArgs (fileDict fileVals) varArgs = .ok v1) :
    lookupStr n (if interactive then fillInteractive (fillDefaults v1 vars) vars input
                 else fillDefaults v1 vars)
      = resolvedVal vars fileVals varArgs interactive input n := by
  have h1 : lookupStr n v1 = (discreteVal varArgs n).or (fileVal fileVals n) := by
    rw [applyVarArgs_lookup n varArgs (fileDict fileVals) v1 ha, lookupStr_fileDict]
  cases interactive with
  | false =>
    rw [if_neg (by simp)]
    rw [lookupStr_fillDefaults n vars v1 hnd, h1]
    simp only [resolvedVal, Bool.false_and, if_neg (by simp : ¬ (false = true)), Option.or_none,
      Option.or_assoc]
  | true =>
    rw [if_pos rfl]
    rw [lookupStr_fillInteractive n input vars (fillDefaults v1 vars) hnd,
      lookupStr_fillDefaults n vars v1 hnd, h1]
    simp only [resolvedVal, Bool.true_and, Option.or_assoc]

theorem collect_values_eq (vars : List (String × Option String))
    (fileVals : Option (List (String × String))) (varArgs : List String)
    (interactive : Bool) (input : String → String) (v1 : List (String × String))
    (ha : applyVarArgs (fileDict fileVals) varArgs = .ok v1) :
    collect_values vars fileVals varArgs interactive input =
      (if ((vars.filter (fun p =>
              !(hasKey (if interactive then fillInteractive (fillDefaults v1 vars) vars input
                        else fillDefaults v1 vars) p.1))).map Prod.fst) = []
       then .ok (if interactive then fillInteractive (fillDefaults v1 vars) vars input
                 else fillDefaults v1 vars)
       else .error (.missing ((vars.filter (fun p =>
              !(hasKey (if interactive then fillInteractive (fillDefaults v1 vars) vars input
                        else fillDefaults v1 vars) p.1))).map Prod.fst))) := by
  simp only [collect_values, ha]

theorem hasKey_pipeline (vars : List (String × Option String))
    (fileVals : Option (List (String × String))) (varArgs : List String)
    (interactive : Bool) (input : String → String) (v1 : List (String × String))
    (n : String) (hnd : (vars.map Prod.fst).Nodup)
    (ha : applyVarArgs (fileDict fileVals) varArgs = .ok v1) :
    hasKey (if interactive then fillInteractive (fillDefaults v1 vars) vars input
            else fillDefaults v1 vars) n
      = (resolvedVal vars fileVals varArgs interactive input n).isSome := by
  rw [hasKey_eq_isSome, lookupStr_pipeline vars fileVals varArgs interactive input v1 n hnd ha]

theorem resolvedVal_isSome (vars : List (String × Option String))
    (fileVals : Option (List (String × String))) (varArgs : List String)
    (interactive : Bool) (input : String → String) (n : String)
    (hmem : n ∈ vars.map Prod.fst) :
    (resolvedVal vars fileVals varArgs interactive input n).isSome
      = !(unresolvedVar vars fileVals varArgs interactive n) := by
  have hk : hasKey vars n = true := (hasKey_iff_mem vars n).mpr hmem
  simp only [resolvedVal, unresolvedVar, Option.isSome_or, hk, Bool.and_true]
  cases interactive with
  | false =>
    cases discreteVal varArgs n <;> cases fileVal fileVals n <;>
      cases defaultVal vars n <;> simp
  | true =>
    cases discreteVal varArgs n <;> cases fileVal fileVals n <;>
      cases defaultVal vars n <;> simp

/-! ## Claim theorems: value resolution -/

/-- C3: value resolution precedence is, highest to lowest, discrete
`key=value` inputs, then values from the values file, then truthy
extraction-time defaults, then interactive prompting (only when enabled and
only for variables still unresolved): for every variable of the template,
the collected value is given by exactly that chain. -/
theorem collect_values_precedence (vars : List (String × Option String))
    (fileVals : Option (List (String × String))) (varArgs : List String)
    (interactive : Bool) (input : String → String) (vals : List (String × String))
    (n : String) (hnd : (vars.map Prod.fst).Nodup)
    (hok : collect_values vars fileVals varArgs interactive input = .ok vals)
    (hmem : n ∈ vars.map Prod.fst) :
    lookupStr n vals =
      (discreteVal varArgs n).or ((fileVal fileVals n).or ((defaultVal vars n).or
        (if interactive then some (interactiveVal vars input n) else none))) := by
  cases ha : applyVarArgs (fileDict fileVals) varArgs with
  | error e =>
    simp only [collect_values, ha] at hok
    exact absurd hok (by simp)
  | ok v1 =>
    rw [collect_values_eq vars fileVals varArgs interactive input v1 ha] at hok
    by_cases hms : ((vars.filter (fun p =>
        !(hasKey (if interactive then fillInteractive (fillDefaults v1 vars) vars input
                  else fillDefaults v1 vars) p.1))).map Prod.fst) = []
    · rw [if_pos hms, Except.ok.injEq] at hok
      subst hok
      rw [lookupStr_pipeline vars fileVals varArgs interactive input v1 n hnd ha]
      have hk : hasKey vars n = true := (hasKey_iff_mem vars n).mpr hmem
      rw [resolvedVal, hk, Bool.and_true]
    · rw [if_neg hms] at hok
      exact absurd hok (by simp)

/-- Witness for C3: for the template `Hello {{name|default="World"}}` with
file value name=FileVal and discrete input name=CliVal, the variable
resolves to CliVal and the rendered output is `Hello CliVal`. -/
theorem collect_values_precedence_witness :
    lookupStr "name" [("name", "CliVal")] = some "CliVal" ∧
    collect_values (extract_variables ("Hello \x7b\x7bname|default=\"World\"\x7d\x7d"))
        (some [("name", "FileVal")]) ["name=CliVal"] false (fun _ => "") =
      .ok [("name", "CliVal")] ∧
    render_template ("Hello \x7b\x7bname|default=\"World\"\x7d\x7d") [("name", "CliVal")] =
      .ok ("Hello CliVal") := by
  refine ⟨?_, rfl, rfl⟩
  have h := collect_values_precedence
    (extract_variables ("Hello \x7b\x7bname|default=\"World\"\x7d\x7d"))
    (some [("name", "FileVal")]) ["name=CliVal"] false (fun _ => "")
    [("name", "CliVal")] "name" (by decide) rfl (by decide)
  rw [h]
  rfl

/-- C4: with well-formed discrete arguments, `collect_values` fails with the
missing-variable error exactly when some template variable resolves through
no stage, and the error lists exactly those variables (in template order). -/
theorem collect_values_missing_iff (vars : List (String × Option String))
    (fileVals : Option (List (String × String))) (varArgs : List String)
    (interactive : Bool) (input : String → String) (names : List String)
    (hargs : ∀ a ∈ varArgs, (splitEq a).isSome)
    (hnd : (vars.map Prod.fst).Nodup) :
    collect_values vars fileVals varArgs interactive input = .error (.missing names) ↔
      (names = (vars.map Prod.fst).filter (unresolvedVar vars fileVals varArgs interactive) ∧
        names ≠ []) := by
  obtain ⟨v1, ha⟩ := applyVarArgs_ok varArgs (fileDict fileVals) hargs
  rw [collect_values_eq vars fileVals varArgs interactive input v1 ha]
  have hms : (vars.filter (fun p =>
        !(hasKey (if interactive then fillInteractive (fillDefaults v1 vars) vars input
                  else fillDefaults v1 vars) p.1))).map Prod.fst
      = (vars.map Prod.fst).filter (unresolvedVar vars fileVals varArgs interactive) := by
    rw [List.filter_map]
    congr 1
    apply List.filter_congr
    intro p hp
    rw [hasKey_pipeline vars fileVals varArgs interactive input v1 p.1 hnd ha,
      resolvedVal_isSome vars fileVals varArgs interactive input p.1
        (List.mem_map_of_mem Prod.fst hp)]
    simp [Function.comp, Bool.not_not]
  rw [hms]
  by_cases hempty :
      (vars.map Prod.fst).filter (unresolvedVar vars fileVals varArgs interactive) = []
  · rw [if_pos hempty]
    constructor
    · intro h
      exact absurd h (by simp)
    · rintro ⟨h1, h2⟩
      exact absurd (h1.trans hempty) h2
  · rw [if_neg hempty]
    constructor
    · intro h
      rw [Except.error.injEq, CollectError.missing.injEq] at h
      exact ⟨h.symm, fun hn => hempty (h.trans hn)⟩
    · rintro ⟨h1, _⟩
      rw [h1]
  
/-- Witness for C4: template `{{x}} and {{y|default="Y"}}` with no supplied
values and interactive mode off fails naming `x` only. -/
theorem collect_values_missing_iff_witness :
    collect_values (extract_variables ("\x7b\x7bx\x7d\x7d and \x7b\x7by|default=\"Y\"\x7d\x7d"))
        none [] false (fun _ => "") = .error (.missing ["x"]) := by
  exact (collect_values_missing_iff
    (extract_variables ("\x7b\x7bx\x7d\x7d and \x7b\x7by|default=\"Y\"\x7d\x7d"))
    none [] false (fun _ => "") ["x"] (by simp) (by decide)).mpr (by decide)

/-- C8: with interactive resolution enabled, well-formed discrete arguments
and a variable of the template that gets no discrete or file value and whose
(stripped) interactive response is empty, `collect_values` succeeds — no
error is raised — and the variable resolves to its recorded default when a
truthy one exists, and to the empty string otherwise (both cases are
`(Option.join (lookupStr n vars)).getD ""`). -/
theorem collect_values_interactive_empty (vars : List (String × Option String))
    (fileVals : Option (List (String × String))) (varArgs : List String)
    (input : String → String) (n : String)
    (hargs : ∀ a ∈ varArgs, (splitEq a).isSome)
    (hnd : (vars.map Prod.fst).Nodup)
    (hmem : n ∈ vars.map Prod.fst)
    (hd : discreteVal varArgs n = none)
    (hf : fileVal fileVals n = none)
    (he : pyStrip (input n) = "") :
    ∃ vals, collect_values vars fileVals varArgs true input = .ok vals ∧
      lookupStr n vals = some ((Option.join (lookupStr n vars)).getD "") := by
  obtain ⟨v1, ha⟩ := applyVarArgs_ok varArgs (fileDict fileVals) hargs
  have hk : hasKey vars n = true := (hasKey_iff_mem vars n).mpr hmem
  have hempty : (vars.filter (fun p =>
        !(hasKey (if true then fillInteractive (fillDefaults v1 vars) vars input
                  else fillDefaults v1 vars) p.1))).map Prod.fst = [] := by
    rw [List.map_eq_nil_iff, List.filter_eq_nil_iff]
    intro p hp
    rw [hasKey_pipeline vars fileVals varArgs true input v1 p.1 hnd ha,
      resolvedVal_isSome vars fileVals varArgs true input p.1
        (List.mem_map_of_mem Prod.fst hp)]
    simp [unresolvedVar]
  refine ⟨(if true then fillInteractive (fillDefaults v1 vars) vars input
           else fillDefaults v1 vars), ?_, ?_⟩
  · rw [collect_values_eq vars fileVals varArgs true input v1 ha, if_pos hempty]
  · rw [lookupStr_pipeline vars fileVals varArgs true input v1 n hnd ha]
    rw [resolvedVal, hd, hf, hk, Bool.and_true]
    simp only [Option.none_or, if_pos rfl]
    cases hdv : defaultVal vars n with
    | none =>
      rw [Option.none_or, interactiveVal, if_pos he]
      simp
    | some d =>
      rw [defaultVal] at hdv
      cases hl : lookupStr n vars with
      | none => rw [hl] at hdv; simp at hdv
      | some od =>
        cases od with
        | none => rw [hl] at hdv; simp at hdv
        | some d2 =>
          rw [hl] at hdv
          have hdv2 : (if d2 = "" then (none : Option String) else some d2) = some d := hdv
          by_cases hd2 : d2 = ""
          · rw [if_pos hd2] at hdv2
            simp at hdv2
          · rw [if_neg hd2] at hdv2
            rw [Option.some.injEq] at hdv2
            subst hdv2
            simp [Option.or, Option.join]

/-- Witness for C8: variables `a` (no default) and `b` (default `D`), no
discrete or file values, interactive on, whitespace-only responses: the run
succeeds, `a` resolves to the empty string and `b` to its default. -/
theorem collect_values_interactive_empty_witness :
    (∃ vals, collect_values [("a", none)] none [] true (fun _ => " ") = .ok vals ∧
      lookupStr "a" vals = some "") ∧
    (∃ vals, collect_values [("b", some "D")] none [] true (fun _ => " ") = .ok vals ∧
      lookupStr "b" vals = some "D") := by
  constructor
  · obtain ⟨vals, h1, h2⟩ := collect_values_interactive_empty [("a", none)] none []
      (fun _ => " ") "a" (by simp) (by decide) (by decide) (by decide) rfl (by decide)
    refine ⟨vals, h1, ?_⟩
    rw [h2]
    rfl
  · obtain ⟨vals, h1, h2⟩ := collect_values_interactive_empty [("b", some "D")] none []
      (fun _ => " ") "b" (by simp) (by decide) (by decide) (by decide) rfl (by decide)
    refine ⟨vals, h1, ?_⟩
    rw [h2]
    rfl

/-! ## Keys of the extraction dict -/

theorem keys_map_update {β : Type} (l : List (String × β)) (k : String) (v : β) :
    (l.map (fun p => if p.1 = k then (k, v) else p)).map Prod.fst = l.map Prod.fst := by
  rw [List.map_map]
  apply List.map_congr_left
  intro p _
  by_cases h : p.1 = k <;> simp [h]

theorem mem_keys_dictInsert {β : Type} (l : List (String × β)) (k : String) (v : β)
    (n : String) :
    n ∈ (dictInsert l k v).map Prod.fst ↔ n = k ∨ n ∈ l.map Prod.fst := by
  unfold dictInsert
  by_cases h : l.any (fun p => p.1 = k)
  · rw [if_pos h, keys_map_update]
    constructor
    · exact fun hm => Or.inr hm
    · rintro (rfl | hm)
      · exact (hasKey_iff_mem l n).mp h
      · exact hm
  · rw [if_neg h]
    simp [List.mem_append]
    constructor
    · rintro (hm | rfl)
      · exact Or.inr hm
      · exact Or.inl rfl
    · rintro (rfl | hm)
      · exact Or.inr rfl
      · exact Or.inl hm

theorem nodup_keys_dictInsert {β : Type} (l : List (String × β)) (k : String) (v : β)
    (h : (l.map Prod.fst).Nodup) : ((dictInsert l k v).map Prod.fst).Nodup := by
  unfold dictInsert
  by_cases hk : l.any (fun p => p.1 = k)
  · rw [if_pos hk, keys_map_update]
    exact h
  · rw [if_neg hk]
    have hnotin : k ∉ l.map Prod.fst := by
      intro hm
      exact absurd ((hasKey_iff_mem l k).mpr hm) (by simpa [hasKey] using hk)
    simp [List.map_append]
    exact List.Nodup.append h (by simp) (by simpa [List.disjoint_singleton] using hnotin)

theorem mem_keys_foldl_dictInsert {β γ : Type} (f : β → γ) (n : String) :
    ∀ (ms : List (String × β)) (acc : List (String × γ)),
      (n ∈ (ms.foldl (fun a p => dictInsert a p.1 (f p.2)) acc).map Prod.fst ↔
        n ∈ ms.map Prod.fst ∨ n ∈ acc.map Prod.fst)
  | [], acc => by simp
  | m :: rest, acc => by
    rw [List.foldl_cons, mem_keys_foldl_dictInsert f n rest]
    rw [mem_keys_dictInsert]
    simp [List.mem_cons]
    tauto

theorem nodup_keys_foldl_dictInsert {β γ : Type} (f : β → γ) :
    ∀ (ms : List (String × β)) (acc : List (String × γ)),
      (acc.map Prod.fst).Nodup →
      ((ms.foldl (fun a p => dictInsert a p.1 (f p.2)) acc).map Prod.fst).Nodup
  | [], acc => fun h => h
  | m :: rest, acc => fun h => by
    rw [List.foldl_cons]
    exact nodup_keys_foldl_dictInsert f rest (dictInsert acc m.1 (f m.2))
      (nodup_keys_dictInsert acc m.1 (f m.2) h)

/-! ## Scanning a single marker with an empty default literal -/

theorem takeWhile_append_stop (p : Char → Bool) :
    ∀ (xs : List Char) (y : Char) (ys : List Char), (∀ x ∈ xs, p x = true) → p y = false →
      (xs ++ y :: ys).takeWhile p = xs ∧ (xs ++ y :: ys).dropWhile p = y :: ys
  | [], y, ys => by
    intro _ hy
    simp [List.takeWhile_cons, List.dropWhile_cons, hy]
  | x :: xs, y, ys => by
    intro hxs hy
    have hx : p x = true := hxs x (by simp)
    have ih := takeWhile_append_stop p xs y ys (fun ch hc => hxs ch (by simp [hc])) hy
    simp [List.takeWhile_cons, List.dropWhile_cons, hx, ih.1, ih.2]

theorem scanAuxF_nil : ∀ f : Nat, scanAuxF f ([] : List Char) = [] := by
  intro f
  cases f <;> rfl

theorem scanAuxF_cons (m : Nat) (ch : Char) (l : List Char) :
    scanAuxF (m + 1) (ch :: l) =
      (match matchMarkerAt (ch :: l) with
       | some (nm, d, r) => (nm, d) :: scanAuxF m r
       | none => scanAuxF m l) := rfl

theorem scanAuxF_cons_match (m : Nat) (ch : Char) (l : List Char) (nm : String)
    (d : Option String) (r : List Char)
    (h : matchMarkerAt (ch :: l) = some (nm, d, r)) :
    scanAuxF (m + 1) (ch :: l) = (nm, d) :: scanAuxF m r := by
  rw [scanAuxF_cons, h]

theorem scanMarkers_empty_default (n : String) (hne : n ≠ "")
    (hw : ∀ c ∈ n.data, isWordChar c = true) :
    scanMarkers ("\x7b\x7b" ++ n ++ "|default=\"\"\x7d\x7d") = [(n, some "")] := by
  obtain ⟨c, cs, hcons⟩ : ∃ c cs, n.data = c :: cs := by
    cases hd : n.data with
    | nil => exact absurd (String.ext hd) hne
    | cons c cs => exact ⟨c, cs, rfl⟩
  have hdata : ("\x7b\x7b" ++ n ++ "|default=\"\"\x7d\x7d").data
      = '{' :: '{' :: (n.data ++
          ('|' :: 'd' :: 'e' :: 'f' :: 'a' :: 'u' :: 'l' :: 't' :: '=' :: '"' ::
            '"' :: '}' :: '}' :: [])) := by
    rw [String.data_append, String.data_append]
    rfl
  rw [hcons] at hw
  have htw := takeWhile_append_stop isWordChar (c :: cs) '|'
    ('d' :: 'e' :: 'f' :: 'a' :: 'u' :: 'l' :: 't' :: '=' :: '"' :: '"' :: '}' :: '}' :: [])
    hw (by decide)
  have hpd : parseDefault ('d' :: 'e' :: 'f' :: 'a' :: 'u' :: 'l' :: 't' :: '=' :: '"' ::
      '"' :: '}' :: '}' :: []) = some ("", []) := rfl
  have hmatch : matchMarkerAt ('{' :: '{' :: ((c :: cs) ++
      ('|' :: 'd' :: 'e' :: 'f' :: 'a' :: 'u' :: 'l' :: 't' :: '=' :: '"' ::
        '"' :: '}' :: '}' :: []))) = some (n, some "", []) := by
    simp only [matchMarkerAt, htw.1, htw.2, hpd]
    rw [← hcons]
  rw [scanMarkers, hdata, hcons]
  rw [List.length_cons, List.length_cons]
  rw [scanAuxF_cons_match (((c :: cs) ++
      ('|' :: 'd' :: 'e' :: 'f' :: 'a' :: 'u' :: 'l' :: 't' :: '=' :: '"' ::
        '"' :: '}' :: '}' :: [])).length + 1) '{' ('{' :: ((c :: cs) ++
      ('|' :: 'd' :: 'e' :: 'f' :: 'a' :: 'u' :: 'l' :: 't' :: '=' :: '"' ::
        '"' :: '}' :: '}' :: []))) n (some "") [] hmatch]
  rw [scanAuxF_nil]

/-! ## Claim theorems: extraction -/

/-- C1 (amended): `extract_variables` returns exactly the set of distinct
variable names the marker scan finds in the template (no duplicates, and a
name is a key iff the scan finds it), and for each name it records the
default of the LAST occurrence — an occurrence without a default clause (or
with an empty default literal) is recorded as no default, so a later
occurrence without a default erases a default recorded earlier. -/
theorem extract_variables_spec (t : String) :
    (((extract_variables t).map Prod.fst).Nodup) ∧
    (∀ n, n ∈ (extract_variables t).map Prod.fst ↔ n ∈ (scanMarkers t).map Prod.fst) ∧
    (∀ n, lookupStr n (extract_variables t) =
      ((scanMarkers t).reverse.find? (fun p => p.1 = n)).map (fun p => defaultOrNone p.2)) := by
  refine ⟨?_, ?_, ?_⟩
  · exact nodup_keys_foldl_dictInsert defaultOrNone (scanMarkers t) [] (by simp)
  · intro n
    rw [extract_variables, mem_keys_foldl_dictInsert defaultOrNone n (scanMarkers t) []]
    simp
  · intro n
    rw [extract_variables, lookupStr_foldl_dictInsert defaultOrNone n (scanMarkers t) []]
    rw [show lookupStr n ([] : List (String × Option String)) = none from rfl, Option.or_none]

/-- C1 counterexample: in the template `{{x|default="A"}} {{x}}` the later
occurrence of `x` without a default clause erases the earlier default:
extraction records `x` with no default, while the claim states the first
occurrence's default "A" is kept. -/
theorem extract_variables_first_default_refuted :
    extract_variables ("\x7b\x7bx|default=\"A\"\x7d\x7d \x7b\x7bx\x7d\x7d") = [("x", none)] ∧
    lookupStr "x" (extract_variables ("\x7b\x7bx|default=\"A\"\x7d\x7d \x7b\x7bx\x7d\x7d")) ≠
      some (some "A") := by
  constructor
  · rfl
  · decide

/-- C10: a marker whose default clause carries the empty-string literal is
recorded by extraction as having no default at all; the variable is
therefore required, and resolution with nothing supplied and interactive
mode off fails with the missing-variable error naming it. -/
theorem empty_default_required (n : String) (hne : n ≠ "")
    (hw : ∀ c ∈ n.data, isWordChar c = true) :
    extract_variables ("\x7b\x7b" ++ n ++ "|default=\"\"\x7d\x7d") = [(n, none)] ∧
    collect_values (extract_variables ("\x7b\x7b" ++ n ++ "|default=\"\"\x7d\x7d"))
        none [] false (fun _ => "") = .error (.missing [n]) := by
  have hex : extract_variables ("\x7b\x7b" ++ n ++ "|default=\"\"\x7d\x7d") = [(n, none)] := by
    rw [extract_variables, scanMarkers_empty_default n hne hw]
    rfl
  refine ⟨hex, ?_⟩
  rw [hex]
  rfl

/-- Witness for C10 at the concrete marker `{{x|default=""}}`. -/
theorem empty_default_required_witness :
    extract_variables ("\x7b\x7bx|default=\"\"\x7d\x7d") = [("x", none)] ∧
    collect_values (extract_variables ("\x7b\x7bx|default=\"\"\x7d\x7d"))
        none [] false (fun _ => "") = .error (.missing ["x"]) :=
  empty_default_required "x" (by decide) (by decide)

/-! ## Claim theorems: rendering -/

/-- C2: a substituted value is NOT inserted verbatim and substitution is not
single-pass. The value is handed to `re.sub` as a replacement template, so a
backslash-n pair in the value becomes a newline character; and because the
variables are substituted one global `re.sub` pass per variable over the
whole intermediate string, a marker for a later-processed variable inside an
already substituted value is itself replaced: with values a = "{{b}}",
b = "X" the template `{{a}} {{b}}` renders to "X X", not "{{b}} X". -/
theorem render_template_escapes_and_rescans :
    render_template ("\x7b\x7ba\x7d\x7d \x7b\x7bb\x7d\x7d")
        [("a", "\x7b\x7bb\x7d\x7d"), ("b", "X")] = .ok ("X X") ∧
    render_template ("\x7b\x7ba\x7d\x7d") [("a", "a\\nb")] = .ok ("a\nb") :=
  ⟨rfl, rfl⟩

/-- C7: `render(T, V)` can retain a recognizable marker for a name in V.
With T = `{{a}} {{b}}`, both variables required and both covered by
V = [a = "1", b = "{{a}}"], the output is "1 {{a}}": it still contains the
marker `{{a}}` for the name a ∈ V. -/
theorem render_template_marker_remains :
    extract_variables ("\x7b\x7ba\x7d\x7d \x7b\x7bb\x7d\x7d") = [("a", none), ("b", none)] ∧
    render_template ("\x7b\x7ba\x7d\x7d \x7b\x7bb\x7d\x7d")
        [("a", "1"), ("b", "\x7b\x7ba\x7d\x7d")] = .ok ("1 \x7b\x7ba\x7d\x7d") ∧
    hasMarkerFor "a" ("1 \x7b\x7ba\x7d\x7d") = true :=
  ⟨rfl, rfl, rfl⟩

/-! ## Claim theorems: rule matching -/

/-- C5: the matcher scans the rules in list order and returns the
(value-substituted) response of the first rule whose pattern succeeds as a
case-insensitive search; in particular, for the built-in default rule set
and the text "please explain how to implement a class", the first (code)
rule's response is returned, not the explanation rule's. -/
theorem simulate_response_first_match :
    (∀ (text : String) (values : List (String × String)) (pre post : List Rule) (r : Rule),
      (∀ r2 ∈ pre, regexSearchCI r2.regex text = false) →
      regexSearchCI r.regex text = true →
      simulate_response text (pre ++ r :: post) values = substResponse r.response values) ∧
    simulate_response ("please explain how to implement a class") DEFAULT_RULES [] =
      "Here's a code implementation:\n\n```\n# Implementation\n```\n\nThis demonstrates the functionality." := by
  constructor
  · intro text values pre post r hpre hr
    induction pre with
    | nil => simp [simulate_response, hr]
    | cons q rest ih =>
      have hq : regexSearchCI q.regex text = false := hpre q (by simp)
      simp only [List.cons_append, simulate_response]
      rw [if_neg (by simp [hq])]
      exact ih (fun r2 hr2 => hpre r2 (by simp [hr2]))
  · rfl

/-- Witness for C5: "how to bake" fails the first two default rules and
matches the third ("list|enumerate|steps|how to"), whose response is
returned. -/
theorem simulate_response_first_match_witness :
    simulate_response ("how to bake") DEFAULT_RULES [] =
      "Steps:\n\n1. First\n2. Second\n3. Third" := by
  have h := simulate_response_first_match.1 ("how to bake") []
    (DEFAULT_RULES.take 2) (DEFAULT_RULES.drop 3)
    { regex := "list|enumerate|steps|how to",
      response := "Steps:\n\n1. First\n2. Second\n3. Third" }
    (by decide) (by decide)
  rw [show (DEFAULT_RULES.take 2 ++
      ({ regex := "list|enumerate|steps|how to",
         response := "Steps:\n\n1. First\n2. Second\n3. Third" } : Rule) ::
        DEFAULT_RULES.drop 3) = DEFAULT_RULES from rfl] at h
  rw [h]
  rfl

/-- C6: when no rule in the supplied rule set matches, the matcher returns
the fixed fallback string "No matching response." (it is a total function —
no error); and against the default rule set, "hello there" fails all five
specific rules, matches the universal catch-all `.*`, and yields
"I understand. Here's a response addressing your needs.". -/
theorem simulate_response_fallback :
    (∀ (text : String) (values : List (String × String)) (rules : List Rule),
      (∀ r ∈ rules, regexSearchCI r.regex text = false) →
      simulate_response text rules values = "No matching response.") ∧
    ((∀ r ∈ DEFAULT_RULES.take 5, regexSearchCI r.regex ("hello there") = false) ∧
      regexSearchCI ".*" ("hello there") = true ∧
      simulate_response ("hello there") DEFAULT_RULES [] =
        "I understand. Here's a response addressing your needs.") := by
  refine ⟨?_, by decide, rfl, rfl⟩
  intro text values rules h
  induction rules with
  | nil => rfl
  | cons q rest ih =>
    have hq := h q (by simp)
    simp only [simulate_response]
    rw [if_neg (by simp [hq])]
    exact ih (fun r2 hr2 => h r2 (by simp [hr2]))

/-- Witness for C6: the empty rule set matches nothing, and the fallback
string is returned. -/
theorem simulate_response_fallback_witness :
    simulate_response ("q") [] [] = "No matching response." :=
  simulate_response_fallback.1 ("q") [] [] (by simp)

/-! ## Claim theorems: token estimate -/

/-- C9: the token estimate is a deterministic function of the number of
whitespace-separated tokens alone, monotonically non-decreasing in that
count, and equal to the integer part of 1.3 times the count (13·n/10 over
the integers). -/
theorem estimate_tokens_monotone_linear :
    (∀ t1 t2 : String, wordCount t1 = wordCount t2 → estimate_tokens t1 = estimate_tokens t2) ∧
    (∀ t1 t2 : String, wordCount t1 ≤ wordCount t2 → estimate_tokens t1 ≤ estimate_tokens t2) ∧
    (∀ t : String, estimate_tokens t = 13 * wordCount t / 10) := by
  refine ⟨?_, ?_, fun t => rfl⟩
  · intro t1 t2 h
    simp [estimate_tokens, h]
  · intro t1 t2 h
    exact Nat.div_le_div_right (Nat.mul_le_mul_left 13 h)

/-- Witness for C9: three words estimate to 3 tokens, no more than four
words do. -/
theorem estimate_tokens_monotone_linear_witness :
    estimate_tokens ("one two three") ≤ estimate_tokens ("one two three four") ∧
    estimate_tokens ("one two three") = 3 := by
  constructor
  · exact estimate_tokens_monotone_linear.2.1 ("one two three") ("one two three four")
      (by decide)
  · rfl

end PromptForge
